import Mathlib

/-!
Shallow embedding of the SlideForge slide-aggregation pipeline
(src/src/utils/file_utils.py, src/src/cli.py, src/src/converters/).

The rendering engines (Playwright, WeasyPrint), the PDF merger and the
filesystem are external collaborators; they enter the model as abstract
per-slide outcomes.  Everything the repository itself contributes —
natural ordering of slide files, range parsing and selection, the
sequential and parallel render/merge loops, and temp-file bookkeeping —
is translated directly from the source.
-/

namespace SlideForge

/-! ### Slide resolution (src/src/utils/file_utils.py, get_html_files)

Python sorts the glob results with key
`(int(first digit run of basename), path)`, where files whose basename
has no digits get key `(inf, path)`.  Strings compare by code points. -/

/-- Python string `<` on code points (`str.__lt__` as a list comparison). -/
def listLt : List Char → List Char → Bool
  | _, [] => false
  | [], _ :: _ => true
  | a :: as, b :: bs => if a < b then true else if b < a then false else listLt as bs

/-- Value of the leading run of decimal digits (the regex match `\d+`). -/
def digitsVal : List Char → ℕ → ℕ
  | [], acc => acc
  | c :: cs, acc => if c.isDigit then digitsVal cs (10 * acc + (c.toNat - 48)) else acc

/-- First run of decimal digits anywhere in the character list, as a number
(`re.findall` followed by `int(numbers[0])`); `none` when there are no digits. -/
def firstNumberAux : List Char → Option ℕ
  | [] => none
  | c :: cs => if c.isDigit then some (digitsVal (c :: cs) 0) else firstNumberAux cs

/-- First run of decimal digits in a filename, as a number. -/
def firstNumber (name : String) : Option ℕ := firstNumberAux name.toList

/-- `os.path.basename`: the part of the path after the last slash. -/
def basename (path : String) : String :=
  String.mk ((path.toList.reverse.takeWhile (fun c => c != '/')).reverse)

/-- `natural_sort_key`: `(int(numbers[0]), path)` when the basename has digits,
`(float(inf), path)` otherwise; `none` plays the role of infinity. -/
def natural_sort_key (path : String) : Option ℕ × String :=
  (firstNumber (basename path), path)

/-- `<` on the numeric key component: every number is below infinity (`none`). -/
def optNatLt : Option ℕ → Option ℕ → Bool
  | some m, some n => Nat.blt m n
  | some _, none => true
  | none, _ => false

/-- Non-strict lexicographic comparison of Python sort keys `(number, path)`. -/
def keyLeb (x y : Option ℕ × String) : Bool :=
  optNatLt x.1 y.1 || (x.1 == y.1 && (x.2 == y.2 || listLt x.2.toList y.2.toList))

/-- Total preorder on file paths induced by `natural_sort_key`. -/
def fileLe (f g : String) : Prop :=
  keyLeb (natural_sort_key f) (natural_sort_key g) = true

instance fileLe.decidable : DecidableRel fileLe := fun f g =>
  inferInstanceAs (Decidable (keyLeb (natural_sort_key f) (natural_sort_key g) = true))

/-- `get_html_files`: sort the glob results by `natural_sort_key`.
Python's `sorted` is modelled by insertion sort: the comparison is total,
transitive and (because the key contains the whole path) antisymmetric, so
every correct sort returns the same list. -/
def get_html_files (files : List String) : List String :=
  List.insertionSort fileLe files

/-- Modelled from the spec: the ordering the spec describes for resolution —
by the integer value of the first digit run of the *name*, digitless names
after all numbered ones, ties broken by *name*.  Used only to compare the
source's path-keyed sort against the spec's words. -/
def specNaturalOrder (f g : String) : Prop :=
  match firstNumber (basename f), firstNumber (basename g) with
  | some m, some n =>
      m < n ∨ (m = n ∧ (basename f = basename g ∨
        listLt (basename f).toList (basename g).toList = true))
  | some _, none => True
  | none, some _ => False
  | none, none =>
      basename f = basename g ∨ listLt (basename f).toList (basename g).toList = true

/-! ### Range parsing (src/src/cli.py, parse_range / run_converter)

`parse_range` returns `none` where the Python code reaches `sys.exit(1)`
(a `ValueError` from `int()` or from unpacking the dash split). -/

/-- Python `str.split(sep)` for a one-character separator, accumulator form
(structural recursion so that concrete runs reduce inside the kernel). -/
def splitOnCharAux (sep : Char) : List Char → List Char → List (List Char)
  | [], acc => [acc.reverse]
  | c :: cs, acc =>
    if c == sep then acc.reverse :: splitOnCharAux sep cs []
    else splitOnCharAux sep cs (c :: acc)

/-- Python `str.split(sep)` for a one-character separator. -/
def pySplit (s : String) (sep : Char) : List String :=
  (splitOnCharAux sep s.toList []).map String.mk

/-- Python `str.strip()`: drop whitespace from both ends. -/
def pyStrip (s : String) : String :=
  String.mk (((s.toList.dropWhile Char.isWhitespace).reverse.dropWhile
    Char.isWhitespace).reverse)

/-- Rest of Python `int()`'s digit grammar after the first digit: digits
optionally separated by single underscores (`int("1_0") = 10`); an
underscore not between two digits is a `ValueError`. -/
def pyDigitsAux : List Char → ℕ → Option ℕ
  | [], acc => some acc
  | '_' :: c :: cs, acc =>
    if c.isDigit then pyDigitsAux cs (10 * acc + (c.toNat - 48)) else none
  | ['_'], _ => none
  | c :: cs, acc =>
    if c.isDigit then pyDigitsAux cs (10 * acc + (c.toNat - 48)) else none

/-- The unsigned part of Python `int()`: a digit, then digits with optional
single-underscore grouping. -/
def digitsToNat : List Char → Option ℕ
  | [] => none
  | c :: cs => if c.isDigit then pyDigitsAux cs (c.toNat - 48) else none

/-- Python `int(token.strip())`: whitespace-trimmed optional sign followed
by decimal digits with optional underscore grouping; `none` models the
`ValueError` for any other shape.  Exact for plain-ASCII tokens (see
`plainAsciiChar`); Python additionally accepts non-ASCII decimal digits and
strips a few rarer whitespace characters, which this model leaves out. -/
def parseInt (s : String) : Option Int :=
  match (pyStrip s).toList with
  | '-' :: cs => (digitsToNat cs).map (fun n => -(n : Int))
  | '+' :: cs => (digitsToNat cs).map (fun n => (n : Int))
  | cs => (digitsToNat cs).map (fun n => (n : Int))

/-- The character range on which the embedded `int()` is exact: the modelled
whitespace (space, tab, CR, LF) and printable ASCII.  Outside it Python
`int()` also accepts Unicode decimal digits and strips further whitespace
kinds, which the model does not reproduce. -/
def plainAsciiChar (c : Char) : Bool :=
  c == '\t' || c == '\n' || c == '\r' || (32 ≤ c.toNat && c.toNat ≤ 126)

/-- The comma-branch loop of `parse_range`: convert each part with `int`,
keep `idx = int(part) - 1` when `0 <= idx < total_slides`; the first
unparseable part raises `ValueError`, abandoning the whole call. -/
def commaLoop (total_slides : ℕ) : List String → List ℕ → Option (List ℕ)
  | [], indices => some indices
  | part :: parts, indices =>
    match parseInt part with
    | none => none
    | some n =>
      if 0 ≤ n - 1 ∧ n - 1 < (total_slides : Int) then
        commaLoop total_slides parts (indices ++ [(n - 1).toNat])
      else
        commaLoop total_slides parts indices

/-- `parse_range(range_str, total_slides)`: comma list, dash range, or single
number, producing 0-based indices; `none` models `sys.exit(1)` on
`ValueError` (non-numeric token, or a dash split that is not exactly two
pieces). -/
def parse_range (range_str : String) (total_slides : ℕ) : Option (List ℕ) :=
  if range_str.toList.contains ',' then
    commaLoop total_slides (pySplit range_str ',') []
  else if range_str.toList.contains '-' then
    match pySplit range_str '-' with
    | [sa, sb] =>
      match parseInt sa, parseInt sb with
      | some a, some b =>
        let lo := max 0 (a - 1)
        let hi := min b (total_slides : Int)
        some (if hi ≤ lo then [] else (List.range (hi - lo).toNat).map (fun k => lo.toNat + k))
      | _, _ => none
    | _ => none
  else
    match parseInt range_str with
    | none => none
    | some n =>
      if 0 ≤ n - 1 ∧ n - 1 < (total_slides : Int) then some [(n - 1).toNat] else some []

/-- The tokens `parse_range` hands to `int()`: comma parts, the two sides of a
dash, or the whole string. -/
def rangeTokens (range_str : String) : List String :=
  if range_str.toList.contains ',' then pySplit range_str ','
  else if range_str.toList.contains '-' then pySplit range_str '-'
  else [range_str]

/-- The `--range` handling in `run_converter` (src/src/cli.py lines 666-674):
`if args.range:` is a Python truthiness test, so both `None` and the empty
string mean "no range" and every slide is converted; otherwise parse the
range, abort (`none`) when parsing fails or the selection is empty, else
select `[all_html_files[i] for i in indices]`.  All indices are in bounds
(see the safety theorem), so `List.get?` never drops an entry. -/
def select_html_files (all_html_files : List String) (rangeArg : Option String) :
    Option (List String) :=
  match rangeArg with
  | none => some all_html_files
  | some r =>
    if r.toList.isEmpty then some all_html_files
    else
      match parse_range r all_html_files.length with
      | none => none
      | some indices =>
        if indices.isEmpty then none
        else some (indices.filterMap (fun i => all_html_files.get? i))

/-! ### Render outcomes (src/src/converters/)

The rendering engine is an external collaborator.  Its behaviour on one
slide is one of: the file is missing (the sequential converters skip it
before navigating), navigation/load raises before the temp file exists,
the capture (`page.pdf` / `write_pdf`) raises after the temp file was
created, or a single-page artifact is produced. -/

/-- Per-slide behaviour of the external rendering engine. -/
inductive SlideOutcome (α : Type) where
  | missing : SlideOutcome α
  | navFail : String → SlideOutcome α
  | captureFail : String → SlideOutcome α
  | ok : α → SlideOutcome α
deriving DecidableEq

/-- The artifact a slide contributes: `some` exactly on a successful render. -/
def slideArtifact : SlideOutcome α → Option α
  | .ok a => some a
  | _ => none

/-! ### Sequential aggregators
(src/src/converters/playwright_converter.py convert_to_pdf_playwright,
src/src/converters/weasyprint_converter.py convert_to_pdf_weasyprint)

Both iterate the slides in order inside a per-slide try/except that logs a
warning and continues; successful temp PDFs are appended to `pdf_files`;
after the loop, `sys.exit(1)` if `pdf_files` is empty, else the PDFs are
merged in list order.  `PdfMerger.append`/`write` are external sinks,
modelled as always accepting the artifact. -/

/-- The per-slide loop of `convert_to_pdf_playwright`: on success append the
slide's artifact to `pdf_files`, on any per-slide failure warn and continue. -/
def playwrightLoop : List (SlideOutcome α) → List α → List α
  | [], pdf_files => pdf_files
  | o :: rest, pdf_files =>
    match slideArtifact o with
    | some a => playwrightLoop rest (pdf_files ++ [a])
    | none => playwrightLoop rest pdf_files

/-- `convert_to_pdf_playwright`: run the loop over the ordered slides; exit
with no output (`none`) when no slide succeeded, else merge in list order. -/
def convert_to_pdf_playwright (outs : List (SlideOutcome α)) : Option (List α) :=
  let pdf_files := playwrightLoop outs []
  if pdf_files.isEmpty then none else some pdf_files

/-- The per-slide loop of `convert_to_pdf_weasyprint` (same control flow as
the Playwright one, driving the other engine). -/
def weasyprintLoop : List (SlideOutcome α) → List α → List α
  | [], pdf_files => pdf_files
  | o :: rest, pdf_files =>
    match slideArtifact o with
    | some a => weasyprintLoop rest (pdf_files ++ [a])
    | none => weasyprintLoop rest pdf_files

/-- `convert_to_pdf_weasyprint`: sequential loop, zero-success exit, ordered
merge. -/
def convert_to_pdf_weasyprint (outs : List (SlideOutcome α)) : Option (List α) :=
  let pdf_files := weasyprintLoop outs []
  if pdf_files.isEmpty then none else some pdf_files

/-! ### Parallel aggregator (src/src/converters/parallel_converter.py) -/

/-- `convert_single_slide_playwright_pdf`: the whole body is wrapped in
`try/except Exception`, returning `(index, temp_pdf_name, None)` on success
and `(index, None, str(e))` for any exception — a missing file surfaces as a
navigation error inside the worker. -/
def convert_single_slide_playwright_pdf : SlideOutcome α → ℕ → ℕ × Option α × Option String
  | .ok a, index => (index, some a, none)
  | .missing, index => (index, none, some "net::ERR_FILE_NOT_FOUND")
  | .navFail msg, index => (index, none, some msg)
  | .captureFail msg, index => (index, none, some msg)

/-- The `as_completed` collection loop: results arrive in completion order;
a triple with an error is only warned about, a successful one is stored in
the dict under its original index (`results[index] = pdf_path`).  The dict
is an association list in insertion order; keys are unique because each
task carries a distinct index. -/
def collectLoop : List (ℕ × Option α × Option String) → List (ℕ × α) → List (ℕ × α)
  | [], results => results
  | (index, pdf, _err) :: rest, results =>
    match pdf with
    | some a => collectLoop rest (results ++ [(index, a)])
    | none => collectLoop rest results

/-- Python dict read `results[i]` on the association list. -/
def dictGet : List (ℕ × α) → ℕ → Option α
  | [], _ => none
  | (k, v) :: rest, i => if k = i then some v else dictGet rest i

/-- The merge phase: `for i in sorted(results.keys()): merger.append(results[i])`. -/
def mergeLoop (results : List (ℕ × α)) : List α :=
  (List.insertionSort (fun i j => i ≤ j) (results.map Prod.fst)).filterMap (dictGet results)

/-- `parallel_convert_to_pdf_playwright(html_files, output_path, workers)`:
`ThreadPoolExecutor(max_workers=workers)` raises `ValueError` for a
non-positive worker count (documented stdlib contract), which the outer
`except Exception` turns into `sys.exit(1)` before any task runs (`none`).
Otherwise the tasks complete in an arbitrary order `completed` (each task
tagged with its original index), results are collected into the dict,
`sys.exit(1)` fires if the dict is empty, and the merge replays the dict in
sorted index order. -/
def parallel_convert_to_pdf_playwright (workers : Int)
    (completed : List (ℕ × SlideOutcome α)) : Option (List α) :=
  if workers ≤ 0 then none
  else
    let results := collectLoop
      (completed.map (fun t => convert_single_slide_playwright_pdf t.2 t.1)) []
    if results.isEmpty then none
    else some (mergeLoop results)

/-- The successful renders of a deterministic per-slide outcome list, tagged
with their original indices, in index order. -/
def successResults (outs : List (SlideOutcome α)) : List (ℕ × α) :=
  outs.enum.filterMap (fun t => (slideArtifact t.2).map (fun a => (t.1, a)))

/-! ### Temp-file bookkeeping
(playwright_converter.py lines 62-107, parallel_converter.py lines 11-31 /
131-143)

A temp file is created with `delete=False` before the capture call
(`page.pdf`); we identify it by its slide index.  The sequential converter
records it in `pdf_files` only *after* the capture succeeds, and the
cleanup in `finally` removes exactly the entries of `pdf_files`.  The
parallel worker returns the temp path only on success, and the cleanup
removes exactly `results.values()` (the `os.rmdir` of the non-empty temp
dir fails and is swallowed). -/

/-- Temp files a run creates, per tagged slide: capture failures and
successes both allocate one before the capture call. -/
def tempsCreated (tagged : List (ℕ × SlideOutcome α)) : List ℕ :=
  tagged.filterMap (fun t =>
    match t.2 with
    | .captureFail _ => some t.1
    | .ok _ => some t.1
    | _ => none)

/-- Temp files the cleanup knows about: only the successfully captured ones
(`pdf_files` in the sequential converters, `results.values()` in the
parallel one). -/
def tempsTracked (tagged : List (ℕ × SlideOutcome α)) : List ℕ :=
  tagged.filterMap (fun t =>
    match t.2 with
    | .ok _ => some t.1
    | _ => none)

/-- Slide indices whose capture step raised after the temp file existed. -/
def captureFailIndices (tagged : List (ℕ × SlideOutcome α)) : List ℕ :=
  tagged.filterMap (fun t =>
    match t.2 with
    | .captureFail _ => some t.1
    | _ => none)

/-- Temp files still on disk after the `finally` cleanup. -/
def tempsRemaining (tagged : List (ℕ × SlideOutcome α)) : List ℕ :=
  (tempsCreated tagged).filter (fun i => !(tempsTracked tagged).contains i)

/-- Temp-file bookkeeping of a sequential run over ordered outcomes. -/
def seqTempsRemaining (outs : List (SlideOutcome α)) : List ℕ :=
  tempsRemaining outs.enum

/-! ## Helper lemmas: range parsing -/

theorem commaLoop_bounds (total : ℕ) :
    ∀ (parts : List String) (acc l : List ℕ), (∀ i ∈ acc, i < total) →
      commaLoop total parts acc = some l → ∀ i ∈ l, i < total := by
  intro parts
  induction parts with
  | nil =>
    intro acc l hacc h
    simp only [commaLoop, Option.some.injEq] at h
    exact h ▸ hacc
  | cons p ps ih =>
    intro acc l hacc h
    cases hp : parseInt p with
    | none => exact absurd h (by simp [commaLoop, hp])
    | some n =>
      simp only [commaLoop, hp] at h
      by_cases hc : 0 ≤ n - 1 ∧ n - 1 < (total : Int)
      · rw [if_pos hc] at h
        refine ih _ l ?_ h
        intro i hi
        rcases List.mem_append.mp hi with h1 | h2
        · exact hacc i h1
        · have : i = (n - 1).toNat := by simpa using h2
          omega
      · rw [if_neg hc] at h
        exact ih _ l hacc h

theorem commaLoop_none (total : ℕ) :
    ∀ (parts : List String) (acc : List ℕ) (p : String),
      p ∈ parts → parseInt p = none → commaLoop total parts acc = none := by
  intro parts
  induction parts with
  | nil => intro acc p hp; cases hp
  | cons q qs ih =>
    intro acc p hp hnone
    rcases List.mem_cons.mp hp with rfl | hmem
    · simp only [commaLoop, hnone]
    · cases hq : parseInt q with
      | none => simp only [commaLoop, hq]
      | some n =>
        simp only [commaLoop, hq]
        by_cases hc : 0 ≤ n - 1 ∧ n - 1 < (total : Int)
        · rw [if_pos hc]; exact ih _ p hmem hnone
        · rw [if_neg hc]; exact ih _ p hmem hnone

theorem commaLoop_eq (total : ℕ) :
    ∀ (parts : List String) (acc : List ℕ), (∀ p ∈ parts, (parseInt p).isSome) →
      commaLoop total parts acc = some (acc ++ parts.filterMap (fun p =>
        (parseInt p).bind (fun n =>
          if 0 ≤ n - 1 ∧ n - 1 < (total : Int) then some (n - 1).toNat else none))) := by
  intro parts
  induction parts with
  | nil => intro acc _; simp [commaLoop]
  | cons p ps ih =>
    intro acc hall
    have hp : (parseInt p).isSome := hall p (List.mem_cons_self p ps)
    obtain ⟨n, hn⟩ := Option.isSome_iff_exists.mp hp
    simp only [commaLoop, hn, List.filterMap_cons, Option.some_bind]
    by_cases hc : 0 ≤ n - 1 ∧ n - 1 < (total : Int)
    · rw [if_pos hc, if_pos hc, ih _ (fun q hq => hall q (List.mem_cons_of_mem p hq))]
      simp
    · rw [if_neg hc, if_neg hc, ih _ (fun q hq => hall q (List.mem_cons_of_mem p hq))]

theorem parse_range_none_of_bad_token (s : String) (N : ℕ) (p : String)
    (hp : p ∈ rangeTokens s) (hnone : parseInt p = none) :
    parse_range s N = none := by
  unfold parse_range
  split
  case isTrue hcomma =>
    refine commaLoop_none N _ [] p ?_ hnone
    have hc : ',' ∈ s.data := by simpa using hcomma
    simpa [rangeTokens, hc] using hp
  case isFalse hcomma =>
    have hc : ¬ ',' ∈ s.data := by simpa using hcomma
    split
    case isTrue hdash =>
      have hd : '-' ∈ s.data := by simpa using hdash
      have hp' : p ∈ pySplit s '-' := by simpa [rangeTokens, hc, hd] using hp
      split
      case h_1 sa sb heq =>
        rw [heq] at hp'
        rcases List.mem_cons.mp hp' with rfl | h2
        · simp [hnone]
        · have : p = sb := by simpa using h2
          subst this
          cases parseInt sa <;> simp [hnone]
      case h_2 => rfl
    case isFalse hdash =>
      have hd : ¬ '-' ∈ s.data := by simpa using hdash
      have hp' : p = s := by simpa [rangeTokens, hc, hd] using hp
      subst hp'
      simp [hnone]

theorem filterMap_get?_length (files : List String) :
    ∀ l : List ℕ, (∀ i ∈ l, i < files.length) →
      (l.filterMap (fun i => files.get? i)).length = l.length := by
  intro l
  induction l with
  | nil => intro _; rfl
  | cons i is ih =>
    intro h
    cases hg : files.get? i with
    | none =>
      have := List.get?_eq_none.mp hg
      have := h i (List.mem_cons_self i is)
      omega
    | some f =>
      simp only [List.filterMap_cons, hg, List.length_cons]
      rw [ih (fun j hj => h j (List.mem_cons_of_mem i hj))]

theorem filterMap_get?_range' (files : List String) :
    ∀ (k lo : ℕ), ((List.range' lo k).filterMap (fun i => files.get? i))
      = (files.drop lo).take k := by
  intro k
  induction k with
  | zero => intro lo; simp
  | succ k ih =>
    intro lo
    rw [List.range'_succ]
    cases hg : files.get? lo with
    | none =>
      have hlen : files.length ≤ lo := List.get?_eq_none.mp hg
      have hdrop : files.drop lo = [] := List.drop_eq_nil_of_le hlen
      rw [hdrop]
      simp only [List.filterMap_cons, hg, List.take_nil]
      rw [List.filterMap_eq_nil_iff.mpr]
      intro i hi
      have : lo + 1 ≤ i := (List.mem_range'_1.mp hi).1
      exact List.get?_eq_none.mpr (by omega)
    | some f =>
      have hlt : lo < files.length := by
        by_contra hle
        rw [List.get?_eq_none.mpr (by omega)] at hg
        cases hg
      simp only [List.filterMap_cons, hg]
      rw [ih (lo + 1), List.drop_eq_getElem_cons hlt]
      have hfl : files[lo] = f := by
        have h1 : files[lo]? = some f := by rw [← List.get?_eq_getElem?]; exact hg
        obtain ⟨h2, h3⟩ := List.getElem?_eq_some.mp h1
        exact h3
      rw [hfl, List.take_succ_cons]

/-! ## C10: returned indices are always in bounds -/

/-- C10: for every range string and slide count N, every index that
`parse_range` returns lies in [0, N), across all three grammar branches, so
indexing the resolved slide list with them can never fault (the selection
keeps exactly one slide per returned index). -/
theorem C10_indices_in_bounds (s : String) (N : ℕ) (l : List ℕ)
    (h : parse_range s N = some l) :
    (∀ i ∈ l, i < N) ∧
      (∀ files : List String, files.length = N →
        (l.filterMap (fun i => files.get? i)).length = l.length) := by
  have hbound : ∀ i ∈ l, i < N := by
    unfold parse_range at h
    split at h
    case isTrue hcomma =>
      exact commaLoop_bounds N _ [] l (by intro i hi; cases hi) h
    case isFalse hcomma =>
      split at h
      case isTrue hdash =>
        split at h
        case h_1 sa sb heq =>
          cases ha : parseInt sa with
          | none => rw [ha] at h; cases hb : parseInt sb <;> rw [hb] at h <;> cases h
          | some a =>
            cases hb : parseInt sb with
            | none => rw [ha, hb] at h; cases h
            | some b =>
              rw [ha, hb] at h
              simp only [Option.some.injEq] at h
              subst h
              intro i hi
              by_cases hle : min b (N : Int) ≤ max 0 (a - 1)
              · rw [if_pos hle] at hi; cases hi
              · rw [if_neg hle] at hi
                obtain ⟨k, hk, rfl⟩ := by simpa using hi
                omega
        case h_2 => cases h
      case isFalse hdash =>
        split at h
        case h_1 => cases h
        case h_2 n hn =>
          by_cases hc : 0 ≤ n - 1 ∧ n - 1 < (N : Int)
          · rw [if_pos hc] at h
            simp only [Option.some.injEq] at h
            subst h
            intro i hi
            have : i = (n - 1).toNat := by simpa using hi
            omega
          · rw [if_neg hc] at h
            simp only [Option.some.injEq] at h
            subst h
            intro i hi
            cases hi
  refine ⟨hbound, fun files hlen => filterMap_get?_length files l ?_⟩
  intro i hi
  rw [hlen]
  exact hbound i hi

/-- C10 witness: concrete instantiation at range "1-3" over 2 slides. -/
theorem C10_indices_in_bounds_witness :
    (∀ i ∈ [0, 1], i < 2) ∧
      (∀ files : List String, files.length = 2 →
        (([0, 1] : List ℕ).filterMap (fun i => files.get? i)).length =
          ([0, 1] : List ℕ).length) :=
  C10_indices_in_bounds "1-3" 2 [0, 1] (by decide)

/-! ## Helper lemmas: the aggregation loops -/

theorem playwrightLoop_eq {α : Type} (outs : List (SlideOutcome α)) :
    ∀ acc, playwrightLoop outs acc = acc ++ outs.filterMap slideArtifact := by
  induction outs with
  | nil => intro acc; simp [playwrightLoop]
  | cons o rest ih =>
    intro acc
    cases ho : slideArtifact o with
    | none => simp [playwrightLoop, ho, ih, List.filterMap_cons]
    | some a => simp [playwrightLoop, ho, ih, List.filterMap_cons]

theorem weasyprintLoop_eq {α : Type} (outs : List (SlideOutcome α)) :
    ∀ acc, weasyprintLoop outs acc = acc ++ outs.filterMap slideArtifact := by
  induction outs with
  | nil => intro acc; simp [weasyprintLoop]
  | cons o rest ih =>
    intro acc
    cases ho : slideArtifact o with
    | none => simp [weasyprintLoop, ho, ih, List.filterMap_cons]
    | some a => simp [weasyprintLoop, ho, ih, List.filterMap_cons]

theorem collectLoop_eq {α : Type} (l : List (ℕ × Option α × Option String)) :
    ∀ acc, collectLoop l acc =
      acc ++ l.filterMap (fun t => t.2.1.map (fun a => (t.1, a))) := by
  induction l with
  | nil => intro acc; simp [collectLoop]
  | cons t rest ih =>
    intro acc
    obtain ⟨i, pdf, err⟩ := t
    cases pdf with
    | none => simp [collectLoop, ih, List.filterMap_cons]
    | some a => simp [collectLoop, ih, List.filterMap_cons]

theorem convert_single_slide_fst {α : Type} (o : SlideOutcome α) (i : ℕ) :
    (convert_single_slide_playwright_pdf o i).1 = i := by
  cases o <;> rfl

theorem convert_single_slide_pdf {α : Type} (o : SlideOutcome α) (i : ℕ) :
    (convert_single_slide_playwright_pdf o i).2.1 = slideArtifact o := by
  cases o <;> rfl

theorem convert_single_slide_err {α : Type} (o : SlideOutcome α) (i : ℕ) :
    ((convert_single_slide_playwright_pdf o i).2.2).isSome ↔ slideArtifact o = none := by
  cases o <;> simp [convert_single_slide_playwright_pdf, slideArtifact]

/-- Collecting the worker triples yields exactly the successes of the
completed tasks, keyed by their original indices. -/
theorem collect_results_eq {α : Type} (completed : List (ℕ × SlideOutcome α)) :
    collectLoop (completed.map (fun t => convert_single_slide_playwright_pdf t.2 t.1)) []
      = completed.filterMap (fun t => (slideArtifact t.2).map (fun a => (t.1, a))) := by
  rw [collectLoop_eq, List.nil_append, List.filterMap_map]
  refine List.filterMap_congr ?_
  intro t _
  simp only [Function.comp_apply, convert_single_slide_pdf, convert_single_slide_fst]

theorem le_fst_of_mem_enumFrom {β : Type} :
    ∀ (l : List β) (n : ℕ) (p : ℕ × β), p ∈ l.enumFrom n → n ≤ p.1 := by
  intro l
  induction l with
  | nil => intro n p hp; cases hp
  | cons b bs ih =>
    intro n p hp
    rcases List.mem_cons.mp hp with rfl | hmem
    · exact le_refl n
    · exact le_trans (Nat.le_succ n) (ih (n + 1) p hmem)

theorem snd_mem_of_mem_enumFrom {β : Type} :
    ∀ (l : List β) (n : ℕ) (p : ℕ × β), p ∈ l.enumFrom n → p.2 ∈ l := by
  intro l
  induction l with
  | nil => intro n p hp; cases hp
  | cons b bs ih =>
    intro n p hp
    rcases List.mem_cons.mp hp with rfl | hmem
    · exact List.mem_cons_self b bs
    · exact List.mem_cons_of_mem b (ih (n + 1) p hmem)

theorem pairwise_fst_lt_enumFrom {β : Type} :
    ∀ (l : List β) (n : ℕ), (l.enumFrom n).Pairwise (fun p q => p.1 < q.1) := by
  intro l
  induction l with
  | nil => intro n; exact List.Pairwise.nil
  | cons b bs ih =>
    intro n
    rw [List.enumFrom_cons]
    refine List.Pairwise.cons ?_ (ih (n + 1))
    intro q hq
    exact lt_of_lt_of_le (Nat.lt_succ_self n) (le_fst_of_mem_enumFrom bs (n + 1) q hq)

/-- The canonical success table is strictly increasing in its index keys. -/
theorem pairwise_fst_lt_successResults {α : Type} (outs : List (SlideOutcome α)) :
    (successResults outs).Pairwise (fun p q => p.1 < q.1) := by
  unfold successResults
  refine List.Pairwise.filterMap _ ?_ (pairwise_fst_lt_enumFrom outs 0)
  intro t u hlt p hp q hq
  cases ht : slideArtifact t.2 with
  | none => rw [ht] at hp; cases hp
  | some a =>
    cases hu : slideArtifact u.2 with
    | none => rw [hu] at hq; cases hq
    | some b =>
      rw [ht] at hp
      rw [hu] at hq
      simp only [Option.map_some', Option.mem_def, Option.some.injEq] at hp hq
      subst hp
      subst hq
      exact hlt

theorem nodup_fst_of_pairwise_lt {α : Type} (l : List (ℕ × α))
    (h : l.Pairwise (fun p q => p.1 < q.1)) : (l.map Prod.fst).Nodup :=
  List.pairwise_map.mpr (h.imp (fun hlt => Nat.ne_of_lt hlt))

/-- Looking a key up in the dict does not depend on arrival order, as long as
the keys are distinct. -/
theorem dictGet_perm {α : Type} :
    ∀ {l₁ l₂ : List (ℕ × α)}, l₁.Perm l₂ → (l₂.map Prod.fst).Nodup →
      ∀ i, dictGet l₁ i = dictGet l₂ i := by
  intro l₁ l₂ h
  induction h with
  | nil => intro _ i; rfl
  | cons x h ih =>
    intro hnd i
    obtain ⟨k, v⟩ := x
    simp only [List.map_cons, List.nodup_cons] at hnd
    by_cases hk : k = i
    · simp [dictGet, hk]
    · simp only [dictGet, if_neg hk]
      exact ih hnd.2 i
  | swap x y t =>
    intro hnd i
    obtain ⟨kx, vx⟩ := x
    obtain ⟨ky, vy⟩ := y
    have hne : kx ≠ ky := by
      simp only [List.map_cons, List.nodup_cons, List.mem_cons] at hnd
      exact fun h => hnd.1 (Or.inl h)
    by_cases hx : kx = i
    · subst hx
      have hyk : ¬ ky = kx := fun h => hne h.symm
      simp [dictGet, hyk]
    · by_cases hy : ky = i
      · subst hy
        simp [dictGet, hx]
      · simp [dictGet, hx, hy]
  | trans h₁ h₂ ih₁ ih₂ =>
    intro hnd i
    have hnd₂ := ((h₂.map Prod.fst).nodup_iff).mpr hnd
    rw [ih₁ hnd₂ i, ih₂ hnd i]

/-- Replaying a nodup dict over its own key list reproduces its values. -/
theorem filterMap_dictGet_self {α : Type} :
    ∀ l : List (ℕ × α), (l.map Prod.fst).Nodup →
      (l.map Prod.fst).filterMap (dictGet l) = l.map Prod.snd := by
  intro l
  induction l with
  | nil => intro _; rfl
  | cons x t ih =>
    intro hnd
    obtain ⟨k, v⟩ := x
    simp only [List.map_cons, List.nodup_cons] at hnd
    simp only [List.map_cons, List.filterMap_cons]
    rw [show dictGet ((k, v) :: t) k = some v by simp [dictGet]]
    have hcongr : ∀ j ∈ t.map Prod.fst, dictGet ((k, v) :: t) j = dictGet t j := by
      intro j hj
      have : k ≠ j := fun h => hnd.1 (h ▸ hj)
      simp [dictGet, this]
    rw [List.filterMap_congr hcongr, ih hnd.2]

/-! ## C5: the range grammar -/

/-- C5: for every slide count N, `parse_range` implements the stated grammar:
a single integer n selects the slide at 1-based position n (nothing if out of
bounds); a dash-range a-b selects 1-based positions a through b clamped to
[1, N] in ascending order, empty when a > b; a comma list selects exactly the
listed 1-based positions in the listed order, silently dropping out-of-bounds
entries. -/
theorem C5_range_grammar (s : String) (N : ℕ) :
    (',' ∉ s.toList → '-' ∉ s.toList →
      ∀ n : Int, parseInt s = some n →
        parse_range s N = some (if 1 ≤ n ∧ n ≤ (N : Int) then [(n - 1).toNat] else [])) ∧
    (',' ∉ s.toList → '-' ∈ s.toList →
      ∀ sa sb : String, pySplit s '-' = [sa, sb] →
        ∀ a b : Int, parseInt sa = some a → parseInt sb = some b →
          ∃ l, parse_range s N = some l ∧ List.Pairwise (· < ·) l ∧
            (∀ i : ℕ, i ∈ l ↔ a ≤ (i : Int) + 1 ∧ (i : Int) + 1 ≤ (b : Int) ∧ i < N) ∧
            (b < a → l = [])) ∧
    (',' ∈ s.toList →
      (∀ p ∈ pySplit s ',', (parseInt p).isSome) →
      parse_range s N = some ((pySplit s ',').filterMap (fun p =>
        (parseInt p).bind (fun n =>
          if 1 ≤ n ∧ n ≤ (N : Int) then some (n - 1).toNat else none)))) := by
  refine ⟨?_, ?_, ?_⟩
  · intro hcomma hdash n hn
    simp only [parse_range, hn]
    rw [if_neg (by simpa using hcomma), if_neg (by simpa using hdash)]
    by_cases hc : 0 ≤ n - 1 ∧ n - 1 < (N : Int)
    · rw [if_pos hc, if_pos (by omega)]
    · rw [if_neg hc, if_neg (by omega)]
  · intro hcomma hdash sa sb hsp a b ha hb
    simp only [parse_range, hsp, ha, hb]
    rw [if_neg (by simpa using hcomma), if_pos (by simpa using hdash)]
    refine ⟨_, rfl, ?_, ?_, ?_⟩
    · by_cases hle : min b (N : Int) ≤ max 0 (a - 1)
      · rw [if_pos hle]; exact List.Pairwise.nil
      · rw [if_neg hle, ← List.range'_eq_map_range]
        exact List.pairwise_lt_range' _ _
    · intro i
      by_cases hle : min b (N : Int) ≤ max 0 (a - 1)
      · rw [if_pos hle]
        simp only [List.not_mem_nil, false_iff]
        intro hcon
        omega
      · rw [if_neg hle, ← List.range'_eq_map_range, List.mem_range'_1]
        omega
    · intro hba
      rw [if_pos (by omega)]
  · intro hcomma hall
    simp only [parse_range]
    rw [if_pos (by simpa using hcomma), commaLoop_eq N (pySplit s ',') [] hall]
    simp only [List.nil_append, Option.some.injEq]
    refine List.filterMap_congr ?_
    intro p hp
    obtain ⟨n, hn⟩ := Option.isSome_iff_exists.mp (hall p hp)
    rw [hn]
    simp only [Option.some_bind]
    by_cases hc : 0 ≤ n - 1 ∧ n - 1 < (N : Int)
    · rw [if_pos hc, if_pos (by omega)]
    · rw [if_neg hc, if_neg (by omega)]

/-- C5 witness: the three grammar branches at concrete inputs over 6 slides. -/
theorem C5_range_grammar_witness :
    parse_range "3" 6 = some [2] ∧
    parse_range "1,3,9" 6 = some [0, 2] ∧
    ∃ l, parse_range "2-4" 6 = some l ∧ List.Pairwise (· < ·) l ∧
      (∀ i : ℕ, i ∈ l ↔ (2 : Int) ≤ (i : Int) + 1 ∧ (i : Int) + 1 ≤ (4 : Int) ∧ i < 6) ∧
      ((4 : Int) < 2 → l = []) := by
  refine ⟨?_, ?_, ?_⟩
  · have h := (C5_range_grammar "3" 6).1 (by decide) (by decide) 3 (by decide)
    rw [h]; decide
  · have h := (C5_range_grammar "1,3,9" 6).2.2 (by decide) (by decide)
    rw [h]; decide
  · exact (C5_range_grammar "2-4" 6).2.1 (by decide) (by decide) "2" "4" (by decide)
      2 4 (by decide) (by decide)

/-! ## C6: malformed or empty ranges -/

theorem parse_range_empty_string (N : ℕ) : parse_range "" N = none := by
  have h1 : ("".toList.contains ',') = false := rfl
  have h2 : ("".toList.contains '-') = false := rfl
  have h3 : parseInt "" = none := rfl
  unfold parse_range
  rw [if_neg (by rw [h1]; exact Bool.false_ne_true),
    if_neg (by rw [h2]; exact Bool.false_ne_true), h3]

/-- C6 counterexample: the claim says a range string with a non-numeric
token always aborts before rendering and never falls back to converting all
slides.  But `run_converter` guards the range handling with the truthiness
test `if args.range:`, so the empty range string — whose single token is
non-numeric — is treated as "no range" and the run silently converts every
slide. -/
theorem C6_counterexample :
    rangeTokens "" = [""] ∧
    parseInt "" = none ∧
    select_html_files ["page1.html", "page2.html"] (some "")
      = some ["page1.html", "page2.html"] :=
  ⟨by decide, by decide, by decide⟩

/-- C6 (amended): for every non-empty range string of plain ASCII
characters, a token rejected by Python's `int()` (no digits, or a misplaced
sign or underscore, or junk characters) aborts the run inside `parse_range`
before any rendering, and a range whose resulting selection is empty aborts
in `run_converter`; in neither case does the run fall back to converting
all slides.  The empty range string is the one exception: `if args.range:`
treats it as no range at all and all slides are converted.  (The ASCII
hypothesis scopes the statement to inputs where the embedded `int()` agrees
with Python, which also accepts non-ASCII decimal digits.) -/
theorem C6_bad_range_aborts_amended (s : String) (files : List String) :
    (s.toList ≠ [] → (∀ c ∈ s.toList, plainAsciiChar c = true) →
      (∃ p ∈ rangeTokens s, parseInt p = none) →
      select_html_files files (some s) = none) ∧
    (parse_range s files.length = some [] →
      select_html_files files (some s) = none) := by
  constructor
  · rintro hne _hascii ⟨p, hp, hnone⟩
    have h := parse_range_none_of_bad_token s files.length p hp hnone
    have hemp : ¬ s.toList.isEmpty := by
      simpa [List.isEmpty_iff] using hne
    simp only [select_html_files]
    rw [if_neg hemp, h]
  · intro h
    have hemp : ¬ s.toList.isEmpty := by
      rw [List.isEmpty_iff]
      intro hnil
      have hs : s = "" := String.ext hnil
      rw [hs, parse_range_empty_string] at h
      cases h
    simp only [select_html_files]
    rw [if_neg hemp, h]
    rfl

/-- C6 (amended) witness: the non-numeric range "1,x" and the out-of-bounds
range "9" against 6 slides both abort. -/
theorem C6_bad_range_aborts_witness :
    select_html_files ["p1", "p2", "p3", "p4", "p5", "p6"] (some "1,x") = none ∧
    select_html_files ["p1", "p2", "p3", "p4", "p5", "p6"] (some "9") = none := by
  constructor
  · exact (C6_bad_range_aborts_amended "1,x" _).1 (by decide) (by decide)
      ⟨"x", by decide, by decide⟩
  · exact (C6_bad_range_aborts_amended "9" _).2 (by decide)

/-! ## C9: non-positive worker counts -/

/-- C9: the parallel converter run with a non-positive worker count fails
(`ThreadPoolExecutor` raises, the outer handler exits) and produces no output
whatsoever — in particular it never clamps the count and proceeds. -/
theorem C9_nonpositive_workers (workers : Int)
    (completed : List (ℕ × SlideOutcome ℕ)) (hw : workers ≤ 0) :
    parallel_convert_to_pdf_playwright workers completed = none ∧
    ∀ out : List ℕ, parallel_convert_to_pdf_playwright workers completed ≠ some out := by
  have h : parallel_convert_to_pdf_playwright workers completed = none := by
    unfold parallel_convert_to_pdf_playwright
    rw [if_pos hw]
  exact ⟨h, fun out hout => by rw [h] at hout; cases hout⟩

/-- C9 witness: zero workers over one renderable slide still yields no output. -/
theorem C9_nonpositive_workers_witness :
    parallel_convert_to_pdf_playwright 0 [((0 : ℕ), SlideOutcome.ok (5 : ℕ))] = none ∧
    ∀ out : List ℕ,
      parallel_convert_to_pdf_playwright 0 [((0 : ℕ), SlideOutcome.ok (5 : ℕ))] ≠ some out :=
  C9_nonpositive_workers 0 _ (by decide)

/-! ## C4: what range selection returns -/

/-- C4 counterexample: the claim says every selection is an order-preserving
subset of the slide set, unique by path, "in particular for comma lists such
as 3,1 or 2,2,3".  The code builds the comma selection in listed order:
"3,1" yields slide 3 before slide 1 (not a sublist of the resolved order),
and "2,2,3" selects slide 2 twice. -/
theorem C4_counterexample :
    select_html_files ["page1.html", "page2.html", "page3.html"] (some "3,1")
        = some ["page3.html", "page1.html"] ∧
    ¬ List.Sublist ["page3.html", "page1.html"]
        ["page1.html", "page2.html", "page3.html"] ∧
    select_html_files ["page1.html", "page2.html", "page3.html"] (some "2,2,3")
        = some ["page2.html", "page2.html", "page3.html"] ∧
    ¬ (["page2.html", "page2.html", "page3.html"] : List String).Nodup :=
  ⟨by decide, by decide, by decide, by decide⟩

/-- C4 (amended): selections from a dash-range or a single number are
order-preserving subsets (sublists) of the resolved slide list, with no
duplicates when the slide list has none; a comma-list selection consists of
the slides at the listed in-bounds positions, in the listed order (repeats
preserved). -/
theorem C4_amended_selection (files : List String) (s : String) (sel : List String)
    (hsel : select_html_files files (some s) = some sel) :
    (',' ∉ s.toList → sel.Sublist files ∧ (files.Nodup → sel.Nodup)) ∧
    (',' ∈ s.toList → (∀ p ∈ pySplit s ',', (parseInt p).isSome) →
      sel = (pySplit s ',').filterMap (fun p => (parseInt p).bind (fun n =>
        if 1 ≤ n ∧ n ≤ (files.length : Int) then files.get? (n - 1).toNat else none))) := by
  by_cases hemp : s.toList.isEmpty
  · have hfe : files = sel := by
      simp only [select_html_files] at hsel
      rw [if_pos hemp] at hsel
      exact Option.some.inj hsel
    subst hfe
    constructor
    · intro _
      exact ⟨List.Sublist.refl files, fun h => h⟩
    · intro hcomma _
      have hnil : s.toList = [] := by simpa [List.isEmpty_iff] using hemp
      rw [hnil] at hcomma
      cases hcomma
  have hstep : ∃ idxs, parse_range s files.length = some idxs ∧ ¬ idxs.isEmpty ∧
      sel = idxs.filterMap (fun i => files.get? i) := by
    simp only [select_html_files] at hsel
    rw [if_neg hemp] at hsel
    split at hsel
    case h_1 => cases hsel
    case h_2 idxs hpr =>
      by_cases he : idxs.isEmpty
      · rw [if_pos he] at hsel; cases hsel
      · rw [if_neg he] at hsel
        simp only [Option.some.injEq] at hsel
        exact ⟨idxs, hpr, he, hsel.symm⟩
  obtain ⟨idxs, hpr, hne, rfl⟩ := hstep
  constructor
  · intro hcomma
    unfold parse_range at hpr
    split at hpr
    next hc => exact absurd (by simpa using hc) hcomma
    next hc =>
      split at hpr
      next hd =>
        split at hpr
        next sa sb heq =>
          cases ha : parseInt sa with
          | none => rw [ha] at hpr; cases hb : parseInt sb <;> rw [hb] at hpr <;> cases hpr
          | some a =>
            cases hb : parseInt sb with
            | none => rw [ha, hb] at hpr; cases hpr
            | some b =>
              rw [ha, hb] at hpr
              simp only [Option.some.injEq] at hpr
              subst hpr
              by_cases hle : min b (files.length : Int) ≤ max 0 (a - 1)
              · rw [if_pos hle] at hne; exact absurd rfl hne
              · rw [if_neg hle] at hne ⊢
                rw [← List.range'_eq_map_range, filterMap_get?_range']
                have hsub : ((files.drop (max 0 (a - 1)).toNat).take
                    (min b (files.length : Int) - max 0 (a - 1)).toNat).Sublist files :=
                  (List.take_sublist _ _).trans (List.drop_sublist _ _)
                exact ⟨hsub, fun hnd => hnd.sublist hsub⟩
        next => cases hpr
      next hd =>
        split at hpr
        next => cases hpr
        next n hn =>
          by_cases hcond : 0 ≤ n - 1 ∧ n - 1 < (files.length : Int)
          · rw [if_pos hcond] at hpr
            simp only [Option.some.injEq] at hpr
            subst hpr
            cases hg : files.get? (n - 1).toNat with
            | none =>
              have := List.get?_eq_none.mp hg
              omega
            | some f =>
              simp only [List.filterMap_cons, hg, List.filterMap_nil]
              exact ⟨List.singleton_sublist.mpr (List.get?_mem hg),
                fun _ => List.nodup_singleton f⟩
          · rw [if_neg hcond] at hpr
            simp only [Option.some.injEq] at hpr
            subst hpr
            exact absurd rfl hne
  · intro hcomma hall
    unfold parse_range at hpr
    rw [if_pos (by simpa using hcomma),
      commaLoop_eq files.length (pySplit s ',') [] hall] at hpr
    simp only [List.nil_append, Option.some.injEq] at hpr
    subst hpr
    rw [List.filterMap_filterMap]
    refine List.filterMap_congr ?_
    intro p hp
    obtain ⟨n, hn⟩ := Option.isSome_iff_exists.mp (hall p hp)
    rw [hn]
    simp only [Option.some_bind]
    by_cases hc : 0 ≤ n - 1 ∧ n - 1 < (files.length : Int)
    · rw [if_pos hc, if_pos (by omega), Option.some_bind]
    · rw [if_neg hc, if_neg (by omega), Option.none_bind]

/-- C4 (amended) witness: dash range "1-2" over three slides is a sublist and
duplicate-free; comma list "2,2,3" matches the listed-order characterization. -/
theorem C4_amended_selection_witness :
    (List.Sublist ["page1.html", "page2.html"]
        ["page1.html", "page2.html", "page3.html"] ∧
      ((["page1.html", "page2.html", "page3.html"] : List String).Nodup →
        (["page1.html", "page2.html"] : List String).Nodup)) ∧
    (["page2.html", "page2.html", "page3.html"] : List String)
        = (pySplit "2,2,3" ',').filterMap (fun p => (parseInt p).bind (fun n =>
            if 1 ≤ n ∧ n ≤ ((3 : ℕ) : Int) then
              (["page1.html", "page2.html", "page3.html"] : List String).get? (n - 1).toNat
            else none)) := by
  constructor
  · exact (C4_amended_selection ["page1.html", "page2.html", "page3.html"] "1-2"
      ["page1.html", "page2.html"] (by decide)).1 (by decide)
  · exact (C4_amended_selection ["page1.html", "page2.html", "page3.html"] "2,2,3"
      ["page2.html", "page2.html", "page3.html"] (by decide)).2 (by decide) (by decide)

/-- The success table, projected to artifacts, is the list of successful
renders in original index order. -/
theorem successResults_map_snd {α : Type} (outs : List (SlideOutcome α)) :
    (successResults outs).map Prod.snd = outs.filterMap slideArtifact := by
  suffices h : ∀ n : ℕ, (((outs.enumFrom n).filterMap
      (fun t => (slideArtifact t.2).map (fun a => (t.1, a)))).map Prod.snd)
        = outs.filterMap slideArtifact from h 0
  induction outs with
  | nil => intro n; rfl
  | cons o rest ih =>
    intro n
    rw [List.enumFrom_cons]
    cases ho : slideArtifact o with
    | none => simp [List.filterMap_cons, ho, ih]
    | some a => simp [List.filterMap_cons, ho, ih]

/-- The sequential Playwright converter, when at least one slide succeeds,
emits exactly the successful artifacts in slide order. -/
theorem convert_to_pdf_playwright_eq {α : Type} (outs : List (SlideOutcome α))
    (hK : outs.filterMap slideArtifact ≠ []) :
    convert_to_pdf_playwright outs = some (outs.filterMap slideArtifact) := by
  unfold convert_to_pdf_playwright
  simp only [playwrightLoop_eq, List.nil_append]
  rw [if_neg (by simpa [List.isEmpty_iff] using hK)]

/-- Same statement for the WeasyPrint sequential converter. -/
theorem convert_to_pdf_weasyprint_eq {α : Type} (outs : List (SlideOutcome α))
    (hK : outs.filterMap slideArtifact ≠ []) :
    convert_to_pdf_weasyprint outs = some (outs.filterMap slideArtifact) := by
  unfold convert_to_pdf_weasyprint
  simp only [weasyprintLoop_eq, List.nil_append]
  rw [if_neg (by simpa [List.isEmpty_iff] using hK)]

/-- The parallel converter, for any completion order of the tagged tasks and
a positive worker count, emits exactly the successful artifacts in original
index order. -/
theorem parallel_eq_canonical {α : Type} (workers : Int) (hw : 0 < workers)
    (outs : List (SlideOutcome α)) (completed : List (ℕ × SlideOutcome α))
    (hperm : completed.Perm outs.enum) (hK : outs.filterMap slideArtifact ≠ []) :
    parallel_convert_to_pdf_playwright workers completed
      = some (outs.filterMap slideArtifact) := by
  have hR : (completed.filterMap (fun t => (slideArtifact t.2).map (fun a => (t.1, a)))).Perm
      (successResults outs) := hperm.filterMap _
  have hpw := pairwise_fst_lt_successResults outs
  have hnd := nodup_fst_of_pairwise_lt _ hpw
  have hsne : successResults outs ≠ [] := by
    intro h
    rw [← successResults_map_snd outs, h] at hK
    exact hK rfl
  have hRne : completed.filterMap (fun t => (slideArtifact t.2).map (fun a => (t.1, a))) ≠ [] := by
    intro h
    rw [h] at hR
    exact hsne hR.symm.eq_nil
  unfold parallel_convert_to_pdf_playwright
  rw [if_neg (by omega)]
  simp only [collect_results_eq]
  rw [if_neg (by simpa [List.isEmpty_iff] using hRne)]
  unfold mergeLoop
  have hkeys : List.insertionSort (fun i j => i ≤ j)
      ((completed.filterMap (fun t => (slideArtifact t.2).map (fun a => (t.1, a)))).map Prod.fst)
        = (successResults outs).map Prod.fst := by
    refine List.eq_of_perm_of_sorted
      ((List.perm_insertionSort _ _).trans (hR.map Prod.fst))
      (List.sorted_insertionSort _ _) ?_
    exact (List.pairwise_map.mpr hpw).imp le_of_lt
  rw [hkeys, List.filterMap_congr (fun i _ => dictGet_perm hR hnd i),
    filterMap_dictGet_self _ hnd, successResults_map_snd]

/-! ## C1: the ordering invariant -/

/-- C1: over any slide outcomes with K ≥ 1 successes, both aggregators emit
exactly the K successful artifacts, in the relative order of the slides'
original indices (`List.filterMap` keeps list order, so there are no gaps,
duplicates or reordering) — and the parallel result is the same for every
completion order `completed` of the tagged tasks. -/
theorem C1_ordering_invariant (outs : List (SlideOutcome ℕ)) (workers : Int)
    (completed : List (ℕ × SlideOutcome ℕ)) (hw : 0 < workers)
    (hperm : completed.Perm outs.enum) (hK : outs.filterMap slideArtifact ≠ []) :
    convert_to_pdf_playwright outs = some (outs.filterMap slideArtifact) ∧
    parallel_convert_to_pdf_playwright workers completed
        = some (outs.filterMap slideArtifact) ∧
    (outs.filterMap slideArtifact).length
        = outs.countP (fun o => (slideArtifact o).isSome) :=
  ⟨convert_to_pdf_playwright_eq outs hK,
    parallel_eq_canonical workers hw outs completed hperm hK,
    List.length_filterMap_eq_countP _ _⟩

/-- C1 witness: three slides, the middle one failing, with the parallel
results arriving in reversed completion order. -/
theorem C1_ordering_invariant_witness :
    convert_to_pdf_playwright
        [SlideOutcome.ok (10 : ℕ), SlideOutcome.navFail "boom", SlideOutcome.ok 20]
      = some [10, 20] ∧
    parallel_convert_to_pdf_playwright 4
        ([SlideOutcome.ok (10 : ℕ), SlideOutcome.navFail "boom",
          SlideOutcome.ok 20].enum.reverse)
      = some [10, 20] := by
  have h := C1_ordering_invariant
    [SlideOutcome.ok (10 : ℕ), SlideOutcome.navFail "boom", SlideOutcome.ok 20] 4
    ([SlideOutcome.ok (10 : ℕ), SlideOutcome.navFail "boom", SlideOutcome.ok 20].enum.reverse)
    (by decide) (List.reverse_perm _) (by decide)
  constructor
  · rw [h.1]; decide
  · rw [h.2.1]; decide

/-! ## C3: zero successes -/

/-- C3: when no slide renders successfully, all three converters reach the
post-loop `sys.exit(1)` (after attempting every slide) and finalize no
output. -/
theorem C3_zero_success (outs : List (SlideOutcome ℕ)) (workers : Int)
    (completed : List (ℕ × SlideOutcome ℕ)) (hperm : completed.Perm outs.enum)
    (h0 : outs.filterMap slideArtifact = []) :
    convert_to_pdf_playwright outs = none ∧
    convert_to_pdf_weasyprint outs = none ∧
    parallel_convert_to_pdf_playwright workers completed = none := by
  refine ⟨?_, ?_, ?_⟩
  · unfold convert_to_pdf_playwright
    simp [playwrightLoop_eq, h0]
  · unfold convert_to_pdf_weasyprint
    simp [weasyprintLoop_eq, h0]
  · unfold parallel_convert_to_pdf_playwright
    by_cases hw : workers ≤ 0
    · rw [if_pos hw]
    · rw [if_neg hw]
      have hsucc : successResults outs = [] := by
        have h := successResults_map_snd outs
        rw [h0] at h
        exact List.map_eq_nil_iff.mp h
      have hperm' : (completed.filterMap
          (fun t => (slideArtifact t.2).map (fun a => (t.1, a)))).Perm
            (successResults outs) := hperm.filterMap _
      rw [hsucc] at hperm'
      have hR := hperm'.eq_nil
      simp [collect_results_eq, hR]

/-- C3 witness: one slide that fails to render, completion order reversed. -/
theorem C3_zero_success_witness :
    convert_to_pdf_playwright [SlideOutcome.navFail "x", SlideOutcome.missing (α := ℕ)] = none ∧
    convert_to_pdf_weasyprint [SlideOutcome.navFail "x", SlideOutcome.missing (α := ℕ)] = none ∧
    parallel_convert_to_pdf_playwright 4
        ([SlideOutcome.navFail "x", SlideOutcome.missing (α := ℕ)].enum.reverse) = none :=
  C3_zero_success [SlideOutcome.navFail "x", SlideOutcome.missing] 4
    ([SlideOutcome.navFail "x", SlideOutcome.missing].enum.reverse)
    (List.reverse_perm _) (by decide)

/-! ## C7: per-slide failures stay per-slide -/

/-- C7: the parallel task wrapper always returns a triple carrying the
slide's index, with an artifact exactly on engine success and an error
message exactly on engine failure (every engine exception is converted at
the task boundary — nothing escapes as an exception); and one failing slide
aborts neither the sequential loop nor the worker pool: every other
successful slide's artifact still reaches the merged output. -/
theorem C7_failure_isolation :
    (∀ (o : SlideOutcome ℕ) (i : ℕ),
      (convert_single_slide_playwright_pdf o i).1 = i ∧
      (convert_single_slide_playwright_pdf o i).2.1 = slideArtifact o ∧
      (((convert_single_slide_playwright_pdf o i).2.2).isSome ↔ slideArtifact o = none)) ∧
    (∀ (outs : List (SlideOutcome ℕ)) (m : String) (a : ℕ),
      SlideOutcome.navFail m ∈ outs → SlideOutcome.ok a ∈ outs →
      ∃ l, convert_to_pdf_playwright outs = some l ∧ a ∈ l) ∧
    (∀ (workers : Int) (outs : List (SlideOutcome ℕ))
      (completed : List (ℕ × SlideOutcome ℕ)) (i j : ℕ) (m : String) (a : ℕ),
      0 < workers → completed.Perm outs.enum →
      (i, SlideOutcome.navFail m) ∈ completed → (j, SlideOutcome.ok a) ∈ completed →
      ∃ l, parallel_convert_to_pdf_playwright workers completed = some l ∧ a ∈ l) := by
  refine ⟨?_, ?_, ?_⟩
  · intro o i
    exact ⟨convert_single_slide_fst o i, convert_single_slide_pdf o i,
      convert_single_slide_err o i⟩
  · intro outs m a _hfail hok
    have ha : a ∈ outs.filterMap slideArtifact := List.mem_filterMap.mpr ⟨_, hok, rfl⟩
    have hK : outs.filterMap slideArtifact ≠ [] := by
      intro h; rw [h] at ha; cases ha
    exact ⟨_, convert_to_pdf_playwright_eq outs hK, ha⟩
  · intro workers outs completed i j m a hw hperm _hfail hok
    have hmem : (j, SlideOutcome.ok a) ∈ outs.enum := hperm.subset hok
    have hsnd : SlideOutcome.ok a ∈ outs := snd_mem_of_mem_enumFrom outs 0 _ hmem
    have ha : a ∈ outs.filterMap slideArtifact := List.mem_filterMap.mpr ⟨_, hsnd, rfl⟩
    have hK : outs.filterMap slideArtifact ≠ [] := by
      intro h; rw [h] at ha; cases ha
    exact ⟨_, parallel_eq_canonical workers hw outs completed hperm hK, ha⟩

/-- C7 witness: a failing and a succeeding slide, sequential and parallel. -/
theorem C7_failure_isolation_witness :
    (convert_single_slide_playwright_pdf (SlideOutcome.navFail "timeout" : SlideOutcome ℕ) 5).1
        = 5 ∧
    (∃ l, convert_to_pdf_playwright [SlideOutcome.ok (7 : ℕ), SlideOutcome.navFail "t"]
        = some l ∧ 7 ∈ l) ∧
    (∃ l, parallel_convert_to_pdf_playwright 2
        ([SlideOutcome.ok (7 : ℕ), SlideOutcome.navFail "t"].enum.reverse)
        = some l ∧ 7 ∈ l) := by
  refine ⟨?_, ?_, ?_⟩
  · exact (C7_failure_isolation.1 (SlideOutcome.navFail "timeout") 5).1
  · exact C7_failure_isolation.2.1 [SlideOutcome.ok 7, SlideOutcome.navFail "t"] "t" 7
      (by decide) (by decide)
  · exact C7_failure_isolation.2.2 2 [SlideOutcome.ok 7, SlideOutcome.navFail "t"]
      ([SlideOutcome.ok (7 : ℕ), SlideOutcome.navFail "t"].enum.reverse) 1 0 "t" 7
      (by decide) (List.reverse_perm _) (by decide) (by decide)

/-! ## Helper lemmas: natural ordering -/

theorem listLt_cons_same (c : Char) (a b : List Char) :
    listLt (c :: a) (c :: b) = listLt a b := by
  simp [listLt, lt_irrefl]

theorem listLt_append (p : List Char) : ∀ a b, listLt (p ++ a) (p ++ b) = listLt a b := by
  induction p with
  | nil => intro a b; rfl
  | cons c cs ih =>
    intro a b
    rw [List.cons_append, List.cons_append, listLt_cons_same]
    exact ih a b

theorem listLt_nil_false : ∀ a : List Char, listLt a [] = false := by
  intro a; cases a <;> rfl

theorem listLt_trans : ∀ (a b c : List Char), listLt a b = true → listLt b c = true →
    listLt a c = true := by
  intro a
  induction a with
  | nil =>
    intro b c hab hbc
    cases c with
    | nil =>
      cases b with
      | nil => cases hab
      | cons y ys => rw [listLt_nil_false] at hbc; cases hbc
    | cons z zs => rfl
  | cons x xs ih =>
    intro b c hab hbc
    cases b with
    | nil => rw [listLt_nil_false] at hab; cases hab
    | cons y ys =>
      cases c with
      | nil => rw [listLt_nil_false] at hbc; cases hbc
      | cons z zs =>
        simp only [listLt] at hab hbc ⊢
        by_cases hxy : x < y
        · rw [if_pos hxy] at hab
          by_cases hyz : y < z
          · rw [if_pos (lt_trans hxy hyz)]
          · by_cases hzy : z < y
            · rw [if_neg hyz, if_pos hzy] at hbc; cases hbc
            · have hyzeq : y = z := le_antisymm (le_of_not_lt hzy) (le_of_not_lt hyz)
              rw [if_pos (hyzeq ▸ hxy)]
        · by_cases hyx : y < x
          · rw [if_neg hxy, if_pos hyx] at hab; cases hab
          · have hxyeq : x = y := le_antisymm (le_of_not_lt hyx) (le_of_not_lt hxy)
            subst hxyeq
            rw [if_neg hxy, if_neg hyx] at hab
            by_cases hyz : x < z
            · rw [if_pos hyz]
            · by_cases hzy : z < x
              · rw [if_neg hyz, if_pos hzy] at hbc; cases hbc
              · rw [if_neg hyz, if_neg hzy] at hbc ⊢
                exact ih ys zs hab hbc

theorem listLt_total_eq : ∀ (a b : List Char), listLt a b = false → listLt b a = false →
    a = b := by
  intro a
  induction a with
  | nil =>
    intro b hab _
    cases b with
    | nil => rfl
    | cons y ys => cases hab
  | cons x xs ih =>
    intro b hab hba
    cases b with
    | nil => cases hba
    | cons y ys =>
      simp only [listLt] at hab hba
      by_cases hxy : x < y
      · rw [if_pos hxy] at hab; cases hab
      · by_cases hyx : y < x
        · rw [if_pos hyx] at hba; cases hba
        · have hxyeq : x = y := le_antisymm (le_of_not_lt hyx) (le_of_not_lt hxy)
          subst hxyeq
          rw [if_neg hxy, if_neg hxy] at hab hba
          rw [ih ys hab hba]

theorem optNatLt_trans : ∀ (x y z : Option ℕ), optNatLt x y = true → optNatLt y z = true →
    optNatLt x z = true := by
  intro x y z
  cases x <;> cases y <;> cases z <;> simp [optNatLt] <;> omega

theorem optNatLt_total_eq : ∀ (x y : Option ℕ), optNatLt x y = false →
    optNatLt y x = false → x = y := by
  intro x y h1 h2
  cases x with
  | none =>
    cases y with
    | none => rfl
    | some n => simp [optNatLt] at h2
  | some m =>
    cases y with
    | none => simp [optNatLt] at h1
    | some n =>
      simp only [optNatLt] at h1 h2
      have hm : ¬ m < n := fun hlt => by
        rw [show Nat.blt m n = true from by rw [Nat.blt_eq]; exact hlt] at h1
        cases h1
      have hn : ¬ n < m := fun hlt => by
        rw [show Nat.blt n m = true from by rw [Nat.blt_eq]; exact hlt] at h2
        cases h2
      have hmn : m = n := by omega
      rw [hmn]

theorem string_ext (s t : String) (h : s.toList = t.toList) : s = t :=
  String.ext h

theorem keyLeb_iff (x y : Option ℕ × String) :
    keyLeb x y = true ↔ (optNatLt x.1 y.1 = true ∨
      (x.1 = y.1 ∧ (x.2 = y.2 ∨ listLt x.2.toList y.2.toList = true))) := by
  simp [keyLeb, Bool.or_eq_true, Bool.and_eq_true, beq_iff_eq]

theorem fileLe_total : ∀ f g : String, fileLe f g ∨ fileLe g f := by
  intro f g
  unfold fileLe
  rw [keyLeb_iff, keyLeb_iff]
  cases h1 : optNatLt (natural_sort_key f).1 (natural_sort_key g).1 with
  | true => exact Or.inl (Or.inl rfl)
  | false =>
    cases h2 : optNatLt (natural_sort_key g).1 (natural_sort_key f).1 with
    | true => exact Or.inr (Or.inl rfl)
    | false =>
      have hk : (natural_sort_key f).1 = (natural_sort_key g).1 := optNatLt_total_eq _ _ h1 h2
      cases h3 : listLt (natural_sort_key f).2.toList (natural_sort_key g).2.toList with
      | true => exact Or.inl (Or.inr ⟨hk, Or.inr rfl⟩)
      | false =>
        cases h4 : listLt (natural_sort_key g).2.toList (natural_sort_key f).2.toList with
        | true => exact Or.inr (Or.inr ⟨hk.symm, Or.inr rfl⟩)
        | false =>
          have heq : (natural_sort_key f).2 = (natural_sort_key g).2 :=
            string_ext _ _ (listLt_total_eq _ _ h3 h4)
          exact Or.inl (Or.inr ⟨hk, Or.inl heq⟩)

theorem fileLe_trans : ∀ f g h : String, fileLe f g → fileLe g h → fileLe f h := by
  intro f g h hfg hgh
  unfold fileLe at *
  rw [keyLeb_iff] at hfg hgh ⊢
  rcases hfg with h1 | ⟨he1, ht1⟩
  · rcases hgh with h2 | ⟨he2, _⟩
    · exact Or.inl (optNatLt_trans _ _ _ h1 h2)
    · exact Or.inl (he2 ▸ h1)
  · rcases hgh with h2 | ⟨he2, ht2⟩
    · exact Or.inl (he1 ▸ h2)
    · refine Or.inr ⟨he1.trans he2, ?_⟩
      rcases ht1 with hs1 | hl1
      · rcases ht2 with hs2 | hl2
        · exact Or.inl (hs1.trans hs2)
        · exact Or.inr (hs1 ▸ hl2)
      · rcases ht2 with hs2 | hl2
        · exact Or.inr (hs2 ▸ hl1)
        · exact Or.inr (listLt_trans _ _ _ hl1 hl2)

theorem takeWhile_ne_slash_append (l r : List Char) (h : ∀ c ∈ l, (c != '/') = true) :
    (l ++ '/' :: r).takeWhile (fun c => c != '/') = l := by
  induction l with
  | nil => simp [List.takeWhile_cons]
  | cons c cs ih =>
    rw [List.cons_append, List.takeWhile_cons, if_pos (h c (List.mem_cons_self c cs))]
    rw [ih (fun d hd => h d (List.mem_cons_of_mem c hd))]

theorem toList_append (s t : String) : (s ++ t).toList = s.toList ++ t.toList :=
  String.data_append s t

/-- The basename of a file inside a directory is the file's name, as long as
the name itself contains no slash. -/
theorem basename_of_dir (dir n : String) (h : '/' ∉ n.toList) :
    basename (dir ++ "/" ++ n) = n := by
  unfold basename
  have hdata : (dir ++ "/" ++ n).toList = (dir.toList ++ ['/']) ++ n.toList := by
    rw [toList_append, toList_append]
    rfl
  rw [hdata, List.reverse_append, List.reverse_append]
  have hcons : (['/'] : List Char).reverse ++ dir.toList.reverse
      = '/' :: dir.toList.reverse := rfl
  rw [hcons, takeWhile_ne_slash_append _ _ ?_, List.reverse_reverse]
  · exact String.ext rfl
  · intro c hc
    have hcm : c ∈ n.toList := List.mem_reverse.mp hc
    simp only [bne_iff_ne, ne_eq]
    intro hce
    exact h (hce ▸ hcm)

theorem path_eq_iff (dir a b : String) : dir ++ "/" ++ a = dir ++ "/" ++ b ↔ a = b := by
  constructor
  · intro h
    have := congrArg String.toList h
    rw [toList_append, toList_append, toList_append, toList_append,
      List.append_assoc, List.append_assoc] at this
    exact string_ext _ _ (List.append_cancel_left (List.append_cancel_left this))
  · intro h; rw [h]

/-- The source sorts by `(first number of basename, full path)`; inside one
directory, with slash-free names, this implies the spec's order: by the
first number of the *name*, digitless names last, ties broken by *name*. -/
theorem fileLe_imp_spec (dir n₁ n₂ : String) (h₁ : '/' ∉ n₁.toList) (h₂ : '/' ∉ n₂.toList)
    (hle : fileLe (dir ++ "/" ++ n₁) (dir ++ "/" ++ n₂)) :
    specNaturalOrder (dir ++ "/" ++ n₁) (dir ++ "/" ++ n₂) := by
  have hb₁ : basename (dir ++ "/" ++ n₁) = n₁ := basename_of_dir dir n₁ h₁
  have hb₂ : basename (dir ++ "/" ++ n₂) = n₂ := basename_of_dir dir n₂ h₂
  have hdata₁ : (dir ++ "/" ++ n₁).toList = (dir ++ "/").toList ++ n₁.toList :=
    toList_append _ _
  have hdata₂ : (dir ++ "/" ++ n₂).toList = (dir ++ "/").toList ++ n₂.toList :=
    toList_append _ _
  unfold fileLe natural_sort_key at hle
  rw [keyLeb_iff] at hle
  simp only [hb₁, hb₂] at hle
  unfold specNaturalOrder
  rw [hb₁, hb₂]
  cases hf₁ : firstNumber n₁ with
  | some m =>
    cases hf₂ : firstNumber n₂ with
    | some n =>
      rw [hf₁, hf₂] at hle
      rcases hle with hlt | ⟨heq, htie⟩
      · simp only [optNatLt, Nat.blt_eq] at hlt
        exact Or.inl hlt
      · have hmn : m = n := by injection heq
        refine Or.inr ⟨hmn, ?_⟩
        rcases htie with hpe | hpl
        · exact Or.inl ((path_eq_iff dir n₁ n₂).mp hpe)
        · rw [hdata₁, hdata₂, listLt_append] at hpl
          exact Or.inr hpl
    | none => trivial
  | none =>
    cases hf₂ : firstNumber n₂ with
    | some n =>
      rw [hf₁, hf₂] at hle
      rcases hle with hlt | ⟨heq, _⟩
      · simp [optNatLt] at hlt
      · cases heq
    | none =>
      rw [hf₁, hf₂] at hle
      rcases hle with hlt | ⟨_, htie⟩
      · simp [optNatLt] at hlt
      · rcases htie with hpe | hpl
        · exact Or.inl ((path_eq_iff dir n₁ n₂).mp hpe)
        · rw [hdata₁, hdata₂, listLt_append] at hpl
          exact Or.inr hpl

/-! ## C2: natural ordering of slide files -/

/-- C2: resolution sorts a directory's files by the integer value of the
first run of decimal digits in the filename, files without digits after all
files with one, ties broken by name — so page2.html, page10.html, page1.html
resolve as page1, page2, page10.  (`specNaturalOrder` states the ordering in
the claim's terms over basenames; the glob results are `dir/name` paths with
slash-free names.) -/
theorem C2_natural_ordering (dir : String) (names : List String)
    (h : ∀ n ∈ names, '/' ∉ n.toList) :
    (get_html_files (names.map (fun n => dir ++ "/" ++ n))).Perm
        (names.map (fun n => dir ++ "/" ++ n)) ∧
    (get_html_files (names.map (fun n => dir ++ "/" ++ n))).Pairwise specNaturalOrder ∧
    get_html_files ["slides/page2.html", "slides/page10.html", "slides/page1.html"]
      = ["slides/page1.html", "slides/page2.html", "slides/page10.html"] := by
  refine ⟨List.perm_insertionSort _ _, ?_, by decide⟩
  haveI : IsTotal String fileLe := ⟨fileLe_total⟩
  haveI : IsTrans String fileLe := ⟨fileLe_trans⟩
  have hsorted : (get_html_files (names.map (fun n => dir ++ "/" ++ n))).Pairwise fileLe :=
    List.sorted_insertionSort fileLe _
  refine hsorted.imp_of_mem ?_
  intro p₁ p₂ hp₁ hp₂ hle
  have hm₁ : p₁ ∈ names.map (fun n => dir ++ "/" ++ n) := by
    simpa [get_html_files] using hp₁
  have hm₂ : p₂ ∈ names.map (fun n => dir ++ "/" ++ n) := by
    simpa [get_html_files] using hp₂
  obtain ⟨n₁, hn₁, rfl⟩ := List.mem_map.mp hm₁
  obtain ⟨n₂, hn₂, rfl⟩ := List.mem_map.mp hm₂
  exact fileLe_imp_spec dir n₁ n₂ (h n₁ hn₁) (h n₂ hn₂) hle

/-- C2 witness: the claim's own example directory. -/
theorem C2_natural_ordering_witness :
    (get_html_files (["page2.html", "page10.html", "page1.html"].map
        (fun n => "slides" ++ "/" ++ n))).Perm
      (["page2.html", "page10.html", "page1.html"].map (fun n => "slides" ++ "/" ++ n)) ∧
    (get_html_files (["page2.html", "page10.html", "page1.html"].map
        (fun n => "slides" ++ "/" ++ n))).Pairwise specNaturalOrder ∧
    get_html_files ["slides/page2.html", "slides/page10.html", "slides/page1.html"]
      = ["slides/page1.html", "slides/page2.html", "slides/page10.html"] :=
  C2_natural_ordering "slides" ["page2.html", "page10.html", "page1.html"] (by decide)

/-! ## C8: temp-file release -/

theorem tempsTracked_subset_fst {α : Type} (l : List (ℕ × SlideOutcome α)) :
    ∀ i ∈ tempsTracked l, i ∈ l.map Prod.fst := by
  intro i hi
  obtain ⟨t, ht, hf⟩ := List.mem_filterMap.mp hi
  obtain ⟨k, o⟩ := t
  have : k = i := by cases o <;> simp_all [tempsTracked]
  exact this ▸ List.mem_map_of_mem Prod.fst ht

theorem tempsCreated_subset_fst {α : Type} (l : List (ℕ × SlideOutcome α)) :
    ∀ i ∈ tempsCreated l, i ∈ l.map Prod.fst := by
  intro i hi
  obtain ⟨t, ht, hf⟩ := List.mem_filterMap.mp hi
  obtain ⟨k, o⟩ := t
  have : k = i := by cases o <;> simp_all [tempsCreated]
  exact this ▸ List.mem_map_of_mem Prod.fst ht

/-- With one task per index, the cleanup removes exactly the tracked temp
files, leaving exactly the capture-failed slides' temp files behind. -/
theorem tempsRemaining_eq_captureFail {α : Type} :
    ∀ l : List (ℕ × SlideOutcome α), (l.map Prod.fst).Nodup →
      tempsRemaining l = captureFailIndices l := by
  intro l
  induction l with
  | nil => intro _; rfl
  | cons t rest ih =>
    intro hnd
    obtain ⟨i, o⟩ := t
    simp only [List.map_cons, List.nodup_cons] at hnd
    have hni : i ∉ rest.map Prod.fst := hnd.1
    have htail := ih hnd.2
    have htailcongr :
        (tempsCreated rest).filter (fun x => !((i :: tempsTracked rest).contains x))
          = (tempsCreated rest).filter (fun x => !((tempsTracked rest).contains x)) := by
      refine List.filter_congr ?_
      intro x hx
      have hxi : ¬ x = i := by
        intro hxe
        exact hni (hxe ▸ tempsCreated_subset_fst rest x hx)
      simp [List.contains_cons, hxi]
    cases o with
    | ok a =>
      have hc : tempsCreated ((i, SlideOutcome.ok a) :: rest) = i :: tempsCreated rest := by
        simp [tempsCreated]
      have ht : tempsTracked ((i, SlideOutcome.ok a) :: rest) = i :: tempsTracked rest := by
        simp [tempsTracked]
      have hcf : captureFailIndices ((i, SlideOutcome.ok a) :: rest)
          = captureFailIndices rest := by
        simp [captureFailIndices]
      unfold tempsRemaining at htail ⊢
      rw [hc, ht, hcf, List.filter_cons]
      have hhead : (!((i :: tempsTracked rest).contains i)) = false := by simp
      rw [hhead]
      simp only [Bool.false_eq_true, if_false]
      rw [htailcongr, htail]
    | captureFail m =>
      have hc : tempsCreated ((i, SlideOutcome.captureFail m) :: rest)
          = i :: tempsCreated rest := by
        simp [tempsCreated]
      have ht : tempsTracked ((i, SlideOutcome.captureFail m) :: rest)
          = tempsTracked rest := by
        simp [tempsTracked]
      have hcf : captureFailIndices ((i, SlideOutcome.captureFail m) :: rest)
          = i :: captureFailIndices rest := by
        simp [captureFailIndices]
      unfold tempsRemaining at htail ⊢
      rw [hc, ht, hcf, List.filter_cons]
      have hmem : i ∉ tempsTracked rest := fun h => hni (tempsTracked_subset_fst rest i h)
      have hhead : (!((tempsTracked rest).contains i)) = true := by
        simp [hmem]
      rw [hhead]
      simp only [if_true]
      rw [htail]
    | missing =>
      have hc : tempsCreated ((i, SlideOutcome.missing) :: rest) = tempsCreated rest := by
        simp [tempsCreated]
      have ht : tempsTracked ((i, SlideOutcome.missing) :: rest) = tempsTracked rest := by
        simp [tempsTracked]
      have hcf : captureFailIndices ((i, SlideOutcome.missing) :: rest)
          = captureFailIndices rest := by
        simp [captureFailIndices]
      unfold tempsRemaining at htail ⊢
      rw [hc, ht, hcf, htail]
    | navFail m =>
      have hc : tempsCreated ((i, SlideOutcome.navFail m) :: rest) = tempsCreated rest := by
        simp [tempsCreated]
      have ht : tempsTracked ((i, SlideOutcome.navFail m) :: rest) = tempsTracked rest := by
        simp [tempsTracked]
      have hcf : captureFailIndices ((i, SlideOutcome.navFail m) :: rest)
          = captureFailIndices rest := by
        simp [captureFailIndices]
      unfold tempsRemaining at htail ⊢
      rw [hc, ht, hcf, htail]

/-- C8 counterexample: a run where slide 0 succeeds and slide 1's capture
step fails after its temp file was created finishes with output, yet one
temp artifact (slide 1's) survives the cleanup — the claim's "zero
temporary artifacts remain" is false for the code. -/
theorem C8_counterexample :
    seqTempsRemaining [SlideOutcome.ok (10 : ℕ), SlideOutcome.captureFail "disk full"]
        = [1] ∧
    seqTempsRemaining [SlideOutcome.ok (10 : ℕ), SlideOutcome.captureFail "disk full"]
        ≠ [] ∧
    convert_to_pdf_playwright [SlideOutcome.ok (10 : ℕ), SlideOutcome.captureFail "disk full"]
        = some [10] :=
  ⟨by decide, by decide, by decide⟩

/-- C8 (amended): after a run, every temp artifact that was recorded for
merging (successfully captured) has been removed, but an artifact created
for a slide whose capture step failed after the temp file existed is not
tracked and remains; the leftover set is exactly the capture-failed slides'
indices (for the parallel run: whenever each task carries a distinct index,
as the executor guarantees), and it is empty exactly when no slide failed at
the capture step. -/
theorem C8_amended_resource_release (outs : List (SlideOutcome ℕ))
    (completed : List (ℕ × SlideOutcome ℕ)) (hnd : (completed.map Prod.fst).Nodup) :
    seqTempsRemaining outs = captureFailIndices outs.enum ∧
    tempsRemaining completed = captureFailIndices completed ∧
    (seqTempsRemaining outs = [] ↔ captureFailIndices outs.enum = []) := by
  have hseq : seqTempsRemaining outs = captureFailIndices outs.enum :=
    tempsRemaining_eq_captureFail outs.enum
      (nodup_fst_of_pairwise_lt _ (pairwise_fst_lt_enumFrom outs 0))
  exact ⟨hseq, tempsRemaining_eq_captureFail completed hnd, by rw [hseq]⟩

/-- C8 (amended) witness: concrete sequential and (reversed-order) parallel
runs with one capture failure each. -/
theorem C8_amended_resource_release_witness :
    seqTempsRemaining [SlideOutcome.ok (10 : ℕ), SlideOutcome.captureFail "disk full"]
        = captureFailIndices
            ([SlideOutcome.ok (10 : ℕ), SlideOutcome.captureFail "disk full"].enum) ∧
    tempsRemaining ([SlideOutcome.ok (10 : ℕ), SlideOutcome.captureFail "disk full"].enum.reverse)
        = captureFailIndices
            ([SlideOutcome.ok (10 : ℕ), SlideOutcome.captureFail "disk full"].enum.reverse) := by
  have h := C8_amended_resource_release
    [SlideOutcome.ok (10 : ℕ), SlideOutcome.captureFail "disk full"]
    ([SlideOutcome.ok (10 : ℕ), SlideOutcome.captureFail "disk full"].enum.reverse)
    (by decide)
  exact ⟨h.1, h.2.1⟩

end SlideForge
